import Mathlib

/-!
Verification development for the polymorphic-references DDL generator
(`polymorphic/models.py`).  The Python source synthesizes PostgreSQL DDL
(trigger functions, triggers, unique indexes, check constraints) from a
declarative description of a Reference entity and its ReferenceSource
slots.  Below, each Python function that the claims touch is embedded as
an executable Lean definition; machine-level collaborators (the ORM's
schema introspection and expression compiler) are modelled as explicit
data passed in, exactly as the spec designates them external interfaces.
-/

/-- Errors raised by the Python code.  The module raises plain
`Exception(msg)` values; `nameError n` models a Python `NameError` for an
unresolved identifier `n`. -/
inductive PyErr where
  | exception (msg : String)
  | nameError (name : String)
deriving DecidableEq, Repr

/-- Models `raise Exception('Proxy expressions can only use 1 table')` in
`get_proxy_and_foreign_cols` — the spec's MultiTableExpressionError. -/
def multiTableExpressionError : PyErr :=
  .exception "Proxy expressions can only use 1 table"

/-- Models `raise Exception('Reference has no source')` in `unpack` — the
spec's NoSourceBoundError. -/
def noSourceBoundError : PyErr :=
  .exception "Reference has no source"

/-- The spec's ImmutableReferenceError covers the two messages raised by
the mutation guards (`save`/`update` and the two `delete`s). -/
def isImmutableReferenceError : PyErr → Bool
  | .exception "Cannot delete a Reference" => true
  | .exception "Only triggers can update References" => true
  | _ => false

/-- A sub-node of a compiled expression tree, as produced by
`exp.flatten()`: either a column reference (Django `Col`, carrying
`field.column`) or any other node. -/
inductive Atom where
  | col (column : String)
  | other
deriving DecidableEq, Repr

/-- A proxy expression as selected by `get_proxy_and_foreign_cols`:
either a plain source-column name (wrapped into `models.F` by the code)
or an arbitrary `Combinable` expression, identified abstractly. -/
inductive PExpr where
  | colName (s : String)
  | combin (id : Nat)
deriving DecidableEq, Repr

/-- Output of the expression-compiler collaborator for one annotated
queryset: the compiled SQL of the annotation (`ann.as_sql`), its bound
parameters, the tables the compiled query touches (`qs.query.tables`),
and the flattened expression tree of the annotation (`ann.flatten()`). -/
structure ResolvedInfo where
  sql : String
  params : List String
  tables : List String
  flatten : List Atom
deriving DecidableEq, Repr

/-- One declared `FieldProxy`/`ProxiedField`: the identity of its
`reference_field` (`fid`), that field's column, the optional
`foreign_field` default, and the `foreign_fields` per-source override
dict (keyed by the identity `sid` of a ReferenceSource; a `none` value
models an override of Python `None`). -/
structure FieldProxyM where
  fid : Nat
  refColumn : String
  foreignField : Option String
  foreignFields : List (Nat × Option PExpr)
deriving DecidableEq, Repr

/-- One declared `ReferenceSource` slot: `column` is the FK column on
the Reference table, `sourceTable` is `related_model._meta.db_table`,
`refTable` is `model._meta.db_table`, `pkColumn` is
`related_model._meta.pk.column`, `name`/`attname` are the Django field
names used by `unpack` and `select_sources`, and `sid` is the slot's
identity for `foreign_fields` keys. -/
structure SourceM where
  sid : Nat
  column : String
  sourceTable : String
  refTable : String
  pkColumn : String
  name : String
  attname : String
deriving DecidableEq, Repr

/-- The Reference entity: its table plus the declared slots and proxies,
in declaration order (`get_reference_sources` / `get_field_proxies`). -/
structure RefModelM where
  dbTable : String
  sources : List SourceM
  proxies : List FieldProxyM
deriving DecidableEq, Repr

/-- A generated statement tuple: SQL text plus bound parameters. -/
def Stmt := String × List String
deriving instance DecidableEq, Repr for Stmt

deriving instance DecidableEq for Except

/-- Python `ReferenceSource.trigger_name`. -/
def trigger_name (src : SourceM) : String :=
  "update_" ++ src.sourceTable ++ "_" ++ src.refTable ++ "_trigger"

/-- Python `ReferenceSource.index_name`. -/
def index_name (src : SourceM) : String :=
  "unique_" ++ src.sourceTable ++ "_" ++ src.refTable ++ "_ix"

/-- Python `ReferenceSource.trigger_function_name`. -/
def trigger_function_name (src : SourceM) : String :=
  "update_" ++ src.sourceTable ++ "_" ++ src.refTable ++ "_()"

/-- Python `'\"{}\"'.format(self.source_table_name)`: the double-quoted table
name that the code substitutes away. -/
def quoteName (table : String) : String :=
  "\"" ++ table ++ "\""

/-- Greedy left-to-right single-pass replacement of the nonempty pattern
`p :: ps` by `new`, exactly the semantics of CPython's `str.replace`:
at each position, if the pattern matches, emit `new` and resume after
the matched span; otherwise keep the character.  The first argument is
fuel bounding the recursion depth; any fuel at least the length of the
scanned list gives the untruncated result. -/
def repGo (p : Char) (ps new : List Char) : Nat → List Char → List Char
  | _, [] => []
  | 0, s => s
  | fuel + 1, c :: rest =>
    if (p :: ps).isPrefixOf (c :: rest) then
      new ++ repGo p ps new fuel (rest.drop ps.length)
    else
      c :: repGo p ps new fuel rest

/-- Python `s.replace(pat, new)`.  The code only calls this with the
pattern `'"' + source_table_name + '"'`, which is never empty, so the
empty-pattern branch (where CPython would intersperse) is left as the
identity. -/
def pythonReplace (s pat new : String) : String :=
  match pat.data with
  | [] => s
  | p :: ps => ⟨repGo p ps new.data s.data.length s.data⟩

/-- One step of the overrides dict comprehension: a proxy with a truthy
`foreign_fields` dict contributes, for each entry whose key is the
current ReferenceSource (`sid`), the entry's value stored under the
proxy's `reference_field` identity; later writes overwrite earlier
ones, as in a Python dict. -/
def ovStep (sid : Nat) (acc : Nat → Option (Option PExpr)) (p : FieldProxyM) :
    Nat → Option (Option PExpr) :=
  if p.foreignFields.isEmpty then acc
  else
    p.foreignFields.foldl
      (fun acc2 kv =>
        if kv.1 = sid then
          fun k => if k = p.fid then some kv.2 else acc2 k
        else acc2)
      acc

/-- The overrides dict comprehension in `get_proxy_and_foreign_cols`,
iterated over all declared proxies in order. -/
def buildOverrides (sid : Nat) (proxies : List FieldProxyM) :
    Nat → Option (Option PExpr) :=
  proxies.foldl (ovStep sid) (fun _ => none)

/-- Python `proxy.foreign_column`: `self.foreign_field or
self.reference_field.column`. -/
def foreignColumnOf (p : FieldProxyM) : String :=
  p.foreignField.getD p.refColumn

/-- Python `overrides.get(proxy.reference_field, proxy_field_col)` followed by
the `Combinable` test: an absent key falls back to the proxy's own
foreign column, which is a plain string and hence wrapped as a column
name; a present key yields the stored override (possibly `None`). -/
def selectForeignCol (ov : Nat → Option (Option PExpr)) (p : FieldProxyM) :
    Option PExpr :=
  match ov p.fid with
  | some v => v
  | none => some (.colName (foreignColumnOf p))

/-- Whether the compiled single-table query for a proxy expression is
rejected: `len(qs.query.tables) > 1 or source_table not in tables`. -/
def badTables (info : ResolvedInfo) (src : SourceM) : Prop :=
  info.tables.length > 1 ∨ src.sourceTable ∉ info.tables

instance (info : ResolvedInfo) (src : SourceM) : Decidable (badTables info src) := by
  unfold badTables
  infer_instance

/-- One resolved triple `(replaced, resolved[1], ann)`: the compiled SQL
with every double-quoted source-table reference substituted by `NEW`,
the bound parameters, and the flattened expression tree standing for the
retained annotation handle. -/
structure FTriple where
  sql : String
  params : List String
  flatten : List Atom
deriving DecidableEq, Repr

/-- Resolution of one selected proxy expression against the compiler
collaborator `compile`, with the post-processing
`resolved[0].replace('"' + source_table + '"', 'NEW')`. -/
def resolveTriple (compile : PExpr → ResolvedInfo) (src : SourceM)
    (e : PExpr) : FTriple :=
  let info := compile e
  { sql := pythonReplace info.sql (quoteName src.sourceTable) "NEW"
    params := info.params
    flatten := info.flatten }

/-- The proxy loop of `get_proxy_and_foreign_cols`: in order, compute
`proxy_field_col`, select the override or default expression, skip
`None`, reject multi-table compilations, and append the target column
and resolved triple in lockstep. -/
def gpfcGo (compile : PExpr → ResolvedInfo) (src : SourceM)
    (ov : Nat → Option (Option PExpr)) :
    List FieldProxyM → Except PyErr (List String × List FTriple)
  | [] => .ok ([], [])
  | p :: rest =>
    match selectForeignCol ov p with
    | none => gpfcGo compile src ov rest
    | some e =>
      if badTables (compile e) src then
        .error multiTableExpressionError
      else
        match gpfcGo compile src ov rest with
        | .error er => .error er
        | .ok (tcols, fcols) =>
          .ok (foreignColumnOf p :: tcols, resolveTriple compile src e :: fcols)

/-- Python `ReferenceSource.get_proxy_and_foreign_cols`, with the proxy list of
the owning Reference model and the compiler collaborator explicit. -/
def get_proxy_and_foreign_cols (compile : PExpr → ResolvedInfo)
    (proxies : List FieldProxyM) (src : SourceM) :
    Except PyErr (List String × List FTriple) :=
  gpfcGo compile src (buildOverrides src.sid proxies) proxies

/-- Python `ReferenceSource.trigger_function_statement`: the CREATE OR REPLACE
FUNCTION upsert body, transcribed literally from the Python format
template, plus the parameter list flattened over
`[insert_value_cols, foreign_cols]`. -/
def trigger_function_statement (compile : PExpr → ResolvedInfo)
    (proxies : List FieldProxyM) (src : SourceM) : Except PyErr Stmt :=
  match get_proxy_and_foreign_cols compile proxies src with
  | .error e => .error e
  | .ok (proxy_field_cols, foreign_cols) =>
    let fk_col_name := src.pkColumn
    let insert_col_names := src.column :: proxy_field_cols
    let insert_value_cols : List (String × List String) :=
      ("NEW." ++ fk_col_name, []) :: foreign_cols.map (fun t => (t.sql, t.params))
    let into_statement :=
      src.refTable ++ "(" ++ String.intercalate ", " insert_col_names ++ ")"
    let values_statement :=
      "(" ++ String.intercalate ", " (insert_value_cols.map (fun c => c.1)) ++ ")"
    let set_statement :=
      "(" ++ String.intercalate ", " proxy_field_cols ++ ") = (" ++
        String.intercalate ", " (foreign_cols.map (fun t => t.sql)) ++ ")"
    .ok
      ("CREATE OR REPLACE FUNCTION " ++ trigger_function_name src ++
        " RETURNS trigger as $$ BEGIN BEGIN INSERT INTO " ++ into_statement ++
        " VALUES " ++ values_statement ++
        "; EXCEPTION WHEN unique_violation THEN UPDATE " ++ src.refTable ++
        " SET " ++ set_statement ++
        " WHERE " ++ src.column ++ " = NEW." ++ fk_col_name ++
        "; END; RETURN NEW; END $$ LANGUAGE plpgsql;",
      (insert_value_cols.map (fun c => c.2)).flatten ++
        (foreign_cols.map (fun t => t.params)).flatten)

/-- Python `ReferenceSource.drop_trigger_statement`. -/
def drop_trigger_statement (src : SourceM) : Stmt :=
  ("DROP TRIGGER IF EXISTS " ++ trigger_name src ++ " ON " ++
    src.sourceTable ++ ";", [])

/-- Python `ReferenceSource.create_trigger_statement`.  The set comprehension
over the flattened expression trees tests `isinstance(c, Col)`, but the
name `Col` is never imported in the module, so the first element of any
nonempty `exp.flatten()` raises `NameError: name 'Col' is not defined`.
Only when every flatten list is empty does the comprehension finish
(with an empty column set) and the statement get built. -/
def create_trigger_statement (compile : PExpr → ResolvedInfo)
    (proxies : List FieldProxyM) (src : SourceM) : Except PyErr Stmt :=
  match get_proxy_and_foreign_cols compile proxies src with
  | .error e => .error e
  | .ok (_, foreign_cols) =>
    if foreign_cols.any (fun t => !t.flatten.isEmpty) then
      .error (.nameError "Col")
    else
      .ok
        ("CREATE TRIGGER " ++ trigger_name src ++
          " AFTER INSERT OR UPDATE OF " ++ String.intercalate ", " [] ++
          " ON " ++ src.sourceTable ++
          " FOR EACH ROW EXECUTE PROCEDURE " ++ trigger_function_name src ++ ";",
        [])

/-- Python `ReferenceSource.index_function_statement`. -/
def index_function_statement (src : SourceM) : String :=
  "CREATE UNIQUE INDEX " ++ index_name src ++ " ON " ++ src.refTable ++
    "(" ++ src.column ++ ");"

/-- Python `ReferenceSource.index_statement`. -/
def index_statement (src : SourceM) : Stmt :=
  ("DO $$ BEGIN " ++ index_function_statement src ++
    "EXCEPTION WHEN duplicate_table THEN DROP INDEX " ++ index_name src ++
    ";" ++ index_function_statement src ++ "END; $$;", [])

/-- Python `ReferenceModel.make_constraint_name`. -/
def make_constraint_name (m : RefModelM) : String :=
  "constraint_" ++ m.dbTable ++ "_only_one_source"

/-- One `CASE WHEN col IS NOT NULL THEN 1 ELSE 0 END` term. -/
def caseTermSql (col : String) : String :=
  "CASE WHEN " ++ col ++ " IS NOT NULL THEN 1 ELSE 0 END"

/-- Python `ReferenceModel.make_constraint_check`: the mutual-exclusivity check
expression over the declared slot columns. -/
def make_constraint_check (m : RefModelM) : String :=
  " CHECK ((" ++
    String.intercalate " + " ((m.sources.map (fun s => s.column)).map caseTermSql) ++
    ") = 1)"

/-- Python `ReferenceModel.make_add_constaint_statement` (source spelling). -/
def make_add_constaint_statement (m : RefModelM) : Stmt :=
  ("ALTER TABLE " ++ m.dbTable ++ " ADD CONSTRAINT " ++
    make_constraint_name m ++ " " ++ make_constraint_check m ++ ";", [])

/-- Python `ReferenceModel.make_drop_constraint_statement`. -/
def make_drop_constraint_statement (m : RefModelM) : Stmt :=
  ("ALTER TABLE " ++ m.dbTable ++ " DROP CONSTRAINT IF EXISTS " ++
    make_constraint_name m ++ ";", [])

/-- SQL-level truth value of the generated check expression on a row:
the sum of the CASE indicators, one per declared slot column, compared
with 1.  `row c` is the value of column `c` (`none` = SQL NULL). -/
def evalConstraintCheck (cols : List String) (row : String → Option Nat) : Bool :=
  decide (((cols.map (fun c => if (row c).isSome then (1 : Int) else 0)).sum) = 1)

/-- A persisted Reference row: `vals` gives the value of each FK column
or attribute (`none` = NULL), `rels` gives the related source entity
(identified by a numeric id) reached through a slot's field name. -/
structure RefRow where
  vals : List (String × Option Nat)
  rels : List (String × Nat)
deriving DecidableEq, Repr

/-- Python `getattr(self, key)` for a nullable FK column/attribute. -/
def RefRow.fkOf (r : RefRow) (key : String) : Option Nat :=
  (r.vals.lookup key).join

/-- Python `getattr(self, source.name)`: the related entity for a slot. -/
def RefRow.relOf (r : RefRow) (key : String) : Nat :=
  (r.rels.lookup key).getD 0

/-- Python `ReferenceModel.unpack`: scan the declared slots in order and return
the related entity of the first slot whose FK column is not NULL;
otherwise `raise Exception('Reference has no source')`. -/
def unpack (sources : List SourceM) (row : RefRow) : Except PyErr Nat :=
  match sources with
  | [] => .error noSourceBoundError
  | s :: rest =>
    if (row.fkOf s.column).isSome then .ok (row.relOf s.name)
    else unpack rest row

/-- Python `ReferenceModel.save`: raises immediately; the first component is
the list of database statements issued before control returns. -/
def referenceSave (_row : RefRow) : List Stmt × Except PyErr Unit :=
  ([], .error (.exception "Only triggers can update References"))

/-- Python `ReferenceModel.delete`: raises immediately, no statement issued. -/
def referenceDelete (_row : RefRow) : List Stmt × Except PyErr Unit :=
  ([], .error (.exception "Cannot delete a Reference"))

/-- Python `ReferenceQuerySet.update`: raises immediately, no statement issued. -/
def querysetUpdate (_rows : List RefRow) : List Stmt × Except PyErr Unit :=
  ([], .error (.exception "Only triggers can update References"))

/-- Python `ReferenceQuerySet.delete`: raises immediately, no statement issued. -/
def querysetDelete (_rows : List RefRow) : List Stmt × Except PyErr Unit :=
  ([], .error (.exception "Cannot delete a Reference"))

/-- A Django `Q` accumulator: `none` models the empty `models.Q()`
(which adds no WHERE condition), `some p` a real predicate.  `q |= Q(x)`
on the empty `Q` yields `Q(x)`; otherwise it is a disjunction. -/
def orQ (q : Option (RefRow → Bool)) (p : RefRow → Bool) :
    Option (RefRow → Bool) :=
  match q with
  | none => some p
  | some q0 => some (fun r => q0 r || p r)

/-- Python `qs.filter(q)`: filtering by the empty `Q` keeps every row. -/
def filterQ (rows : List RefRow) (q : Option (RefRow → Bool)) : List RefRow :=
  match q with
  | none => rows
  | some p => rows.filter p

/-- Python `ReferenceQuerySet.select_sources(*sources)`: raise on an empty name
list, else OR together an `attname__isnull=False` predicate for every
declared slot whose `attname` or `name` is among the given names, and
filter by the result. -/
def selectSources (sources : List SourceM) (rows : List RefRow)
    (names : List String) : Except PyErr (List RefRow) :=
  if names.length = 0 then
    .error (.exception "At least one source needs to be specified")
  else
    .ok (filterQ rows
      (sources.foldl
        (fun q s =>
          if s.attname ∈ names ∨ s.name ∈ names then
            orQ q (fun r => (r.fkOf s.attname).isSome)
          else q)
        none))

/-- One lazily generated per-source trigger chunk: advancing the
statement generator to a ReferenceSource builds the Python tuple
`(trigger_function_statement, drop_trigger_statement,
create_trigger_statement)`, evaluating all three properties at once, so
a raise from any of them aborts before any of the three is yielded. -/
def gen_trigger_chunk (compile : PExpr → ResolvedInfo)
    (proxies : List FieldProxyM) (src : SourceM) : Except PyErr (List Stmt) :=
  match trigger_function_statement compile proxies src with
  | .error e => .error e
  | .ok fn =>
    match create_trigger_statement compile proxies src with
    | .error e => .error e
    | .ok ct => .ok [fn, drop_trigger_statement src, ct]

/-- The lazy stream of `_gen_all_statements`, as chunks in generation
order: drop-constraint, add-constraint, one index statement per source,
then one trigger chunk per source. -/
def gen_all_chunks (compile : PExpr → ResolvedInfo) (m : RefModelM) :
    List (Except PyErr (List Stmt)) :=
  [.ok [make_drop_constraint_statement m], .ok [make_add_constaint_statement m]]
    ++ m.sources.map (fun s => .ok [index_statement s])
    ++ m.sources.map (fun s => gen_trigger_chunk compile m.proxies s)

/-- Sequencing a chunk stream into the full statement list, failing at
the first raising chunk: the value of `list(cls._gen_all_statements())`. -/
def seqChunks : List (Except PyErr (List Stmt)) → Except PyErr (List Stmt)
  | [] => .ok []
  | c :: rest =>
    match c with
    | .error e => .error e
    | .ok l =>
      match seqChunks rest with
      | .error e => .error e
      | .ok ls => .ok (l ++ ls)

/-- Python `ReferenceModel._gen_all_statements`, fully materialized. -/
def gen_all_statements (compile : PExpr → ResolvedInfo) (m : RefModelM) :
    Except PyErr (List Stmt) :=
  seqChunks (gen_all_chunks compile m)

/-- The `cursor.execute` loop of `_execute_sql` over a lazy chunk stream:
every statement generated so far is executed before the generator is
advanced again, so the statements of all chunks before the first raising
chunk are executed and then the exception propagates. -/
def runChunks : List (Except PyErr (List Stmt)) → List Stmt × Except PyErr Unit
  | [] => ([], .ok ())
  | c :: rest =>
    match c with
    | .error e => ([], .error e)
    | .ok l =>
      match runChunks rest with
      | (executed, res) => (l ++ executed, res)

/-- Python `ReferenceModel._run_sql_statements`: execute the whole statement
stream, recording which statements reached the database. -/
def run_sql_statements (compile : PExpr → ResolvedInfo) (m : RefModelM) :
    List Stmt × Except PyErr Unit :=
  runChunks (gen_all_chunks compile m)

/-- Occurrence of `pat` as a contiguous substring of `s`. -/
def sub (pat s : List Char) : Prop :=
  ∃ l r, s = l ++ pat ++ r

/-- Executable substring test: does `pat` occur contiguously in `s`? -/
def containsSub (pat : List Char) : List Char → Bool
  | [] => pat.isEmpty
  | c :: rest => pat.isPrefixOf (c :: rest) || containsSub pat rest

/-- The chunk decomposition underlying `repGo`: the maximal stretches of
kept characters between the greedily matched occurrences of `p :: ps`,
with the same fuel convention as `repGo`. -/
def splitGo (p : Char) (ps : List Char) : Nat → List Char → List (List Char)
  | _, [] => [[]]
  | 0, s => [s]
  | fuel + 1, c :: rest =>
    if (p :: ps).isPrefixOf (c :: rest) then
      [] :: splitGo p ps fuel (rest.drop ps.length)
    else
      (splitGo p ps fuel rest).modifyHead (fun h => c :: h)

/-- Interleaving of a separator between chunks; `repGo` equals this
applied to `splitGo` with the replacement text as separator. -/
def joinSep (sep : List Char) : List (List Char) → List Char
  | [] => []
  | [x] => x
  | x :: y :: rest => x ++ sep ++ joinSep sep (y :: rest)

/-- Dict lookup into a `foreign_fields` mapping, with Python-dict
last-write-wins semantics over the entry list. -/
def lookupLast (sid : Nat) (l : List (Nat × Option PExpr)) :
    Option (Option PExpr) :=
  l.foldl (fun acc kv => if kv.1 = sid then some kv.2 else acc) none

/-- Selection rule as claim C9 words it, per proxy: the proxy's own
declared per-source override when one is present for this slot, else the
proxy's default source-column name. -/
def specSelect (sid : Nat) (p : FieldProxyM) : Option PExpr :=
  match lookupLast sid p.foreignFields with
  | some v => v
  | none => some (.colName (foreignColumnOf p))

/-- Rendering of the trigger-function SQL as claim C1 describes it: a
CREATE OR REPLACE FUNCTION whose body first attempts an INSERT INTO the
reference table of the slot's FK column plus all resolved proxy target
columns, with values `NEW.<source pk>` plus the resolved expressions,
and on unique_violation falls back to an UPDATE of the reference table
setting the proxy columns to the same expressions WHERE the slot's FK
column equals `NEW.<source pk>`. -/
def specTriggerFunctionSql (src : SourceM) (targetCols : List String)
    (exprSqls : List String) : String :=
  "CREATE OR REPLACE FUNCTION " ++ trigger_function_name src ++
    " RETURNS trigger as $$ BEGIN BEGIN INSERT INTO " ++
    (src.refTable ++ "(" ++
      String.intercalate ", " (src.column :: targetCols) ++ ")") ++
    " VALUES " ++
    ("(" ++ String.intercalate ", " (("NEW." ++ src.pkColumn) :: exprSqls) ++ ")") ++
    "; EXCEPTION WHEN unique_violation THEN UPDATE " ++ src.refTable ++
    " SET " ++
    ("(" ++ String.intercalate ", " targetCols ++ ") = (" ++
      String.intercalate ", " exprSqls ++ ")") ++
    " WHERE " ++ src.column ++ " = NEW." ++ src.pkColumn ++
    "; END; RETURN NEW; END $$ LANGUAGE plpgsql;"

/-- A concrete slot used by witnesses: a `Dog` source of an `animal`
Reference table. -/
def srcDog : SourceM :=
  ⟨0, "dog_id", "dogs", "animal", "id", "dog", "dog_id"⟩

/-- A concrete second slot used by witnesses. -/
def srcCat : SourceM :=
  ⟨1, "cat_id", "cats", "animal", "id", "cat", "cat_id"⟩

/-- A concrete proxy: the `sound` column proxied from `bark_sound`. -/
def proxySound : FieldProxyM :=
  ⟨0, "sound", some "bark_sound", []⟩

/-- A compiler collaborator for the dog slot: the annotation compiles to
the quoted column reference, touching exactly the `dogs` table. -/
def cmplDog : PExpr → ResolvedInfo :=
  fun _ => ⟨"\"dogs\".\"bark_sound\"", [], ["dogs"], [.col "bark_sound"]⟩

/-- A concrete Reference row with only the cat slot populated. -/
def rowCat : RefRow :=
  ⟨[("dog_id", none), ("cat_id", some 7)], [("dog", 1), ("cat", 2)]⟩

/-- A compiler collaborator whose compiled query touches two tables. -/
def cmplMulti : PExpr → ResolvedInfo :=
  fun _ => ⟨"bad", [], ["dogs", "owners"], []⟩

/-- A Reference model with one slot and one proxy, used to exercise the
multi-table failure path. -/
def mMulti : RefModelM :=
  ⟨"animal", [srcDog], [proxySound]⟩

/-- A Reference model with one slot and no proxies, on which full
statement generation succeeds. -/
def mPlain : RefModelM :=
  ⟨"animal", [srcDog], []⟩

/-- A trivial compiler for the proxy-free model. -/
def cmplPlain : PExpr → ResolvedInfo :=
  fun _ => ⟨"x", [], ["dogs"], []⟩

/-- The drop-constraint statement generated for the `animal` table. -/
def stmtDropC : Stmt :=
  ("ALTER TABLE animal DROP CONSTRAINT IF EXISTS constraint_animal_only_one_source;", [])

/-- The add-constraint statement generated for the `animal` table with
the single `dog_id` slot. -/
def stmtAddC : Stmt :=
  ("ALTER TABLE animal ADD CONSTRAINT constraint_animal_only_one_source  CHECK ((CASE WHEN dog_id IS NOT NULL THEN 1 ELSE 0 END) = 1);", [])

/-- The unique-index statement generated for the `dog_id` slot. -/
def stmtIdx : Stmt :=
  ("DO $$ BEGIN CREATE UNIQUE INDEX unique_dogs_animal_ix ON animal(dog_id);EXCEPTION WHEN duplicate_table THEN DROP INDEX unique_dogs_animal_ix;CREATE UNIQUE INDEX unique_dogs_animal_ix ON animal(dog_id);END; $$;", [])

/-- The statement list generated for `mPlain`, written out. -/
def stmtsPlain : List Stmt :=
  [stmtDropC, stmtAddC, stmtIdx,
   ("CREATE OR REPLACE FUNCTION update_dogs_animal_() RETURNS trigger as $$ BEGIN BEGIN INSERT INTO animal(dog_id) VALUES (NEW.id); EXCEPTION WHEN unique_violation THEN UPDATE animal SET () = () WHERE dog_id = NEW.id; END; RETURN NEW; END $$ LANGUAGE plpgsql;", []),
   ("DROP TRIGGER IF EXISTS update_dogs_animal_trigger ON dogs;", []),
   ("CREATE TRIGGER update_dogs_animal_trigger AFTER INSERT OR UPDATE OF  ON dogs FOR EACH ROW EXECUTE PROCEDURE update_dogs_animal_();", [])]

/-- A source table whose name contains the letters NEW, together with a
compiled SQL in which the replacement of the quoted table name by `NEW`
recreates a quoted occurrence of the table name. -/
def srcTricky : SourceM :=
  ⟨0, "x_id", "aNEWb", "refs", "id", "x", "x_id"⟩

/-- Compiler output for the tricky source: the compiled SQL is
the eleven characters quote a quote a N E W b quote b quote. -/
def cmplTricky : PExpr → ResolvedInfo :=
  fun _ => ⟨"\"a\"aNEWb\"b\"", [], ["aNEWb"], []⟩

/-- A proxy whose default foreign column is the plain name `c`. -/
def proxyC : FieldProxyM :=
  ⟨0, "sound", some "c", []⟩

/-- A Reference model with the two slots and no proxies. -/
def mAnimal : RefModelM :=
  ⟨"animal", [srcDog, srcCat], []⟩

/-- A row valuation with exactly the `dog_id` column non-null. -/
def rowDogOnly : String → Option Nat :=
  fun c => if c = "dog_id" then some 1 else none

/-- The resolved triple produced for `proxySound` under `cmplDog`. -/
def tripleDog : FTriple :=
  ⟨"NEW.\"bark_sound\"", [], [.col "bark_sound"]⟩

/-- A second proxy carrying a per-source override for the dog slot. -/
def proxyOv : FieldProxyM :=
  ⟨1, "nick", none, [(0, some (.colName "dog_name"))]⟩

/-- A proxy whose override for the dog slot is Python `None`, so it is
skipped for that slot. -/
def proxyNone : FieldProxyM :=
  ⟨2, "extra", some "whatever", [(0, none)]⟩

/-- The proxy list used by the C9 witness. -/
def psW : List FieldProxyM :=
  [proxySound, proxyOv, proxyNone]

/-- C4: on every Reference instance and queryset, `save`, `delete`,
queryset `update` and queryset `delete` raise an ImmutableReferenceError
immediately, with zero database statements issued before the raise. -/
theorem c4_mutation_guards :
    ∀ (row : RefRow) (rows : List RefRow),
      (∃ e, referenceSave row = ([], .error e) ∧ isImmutableReferenceError e = true) ∧
      (∃ e, referenceDelete row = ([], .error e) ∧ isImmutableReferenceError e = true) ∧
      (∃ e, querysetUpdate rows = ([], .error e) ∧ isImmutableReferenceError e = true) ∧
      (∃ e, querysetDelete rows = ([], .error e) ∧ isImmutableReferenceError e = true) := by
  intro row rows
  exact ⟨⟨_, rfl, rfl⟩, ⟨_, rfl, rfl⟩, ⟨_, rfl, rfl⟩, ⟨_, rfl, rfl⟩⟩

/-- C3: `unpack` scans the declared slots in declaration order and
returns the related source entity through the first slot whose FK column
is non-null; it raises NoSourceBoundError exactly when every slot's FK
column is null. -/
theorem c3_unpack_first_nonnull :
    ∀ (sources : List SourceM) (row : RefRow),
      (unpack sources row = .error noSourceBoundError ↔
        ∀ s ∈ sources, row.fkOf s.column = none) ∧
      (∀ s, sources.find? (fun t => (row.fkOf t.column).isSome) = some s →
        unpack sources row = .ok (row.relOf s.name)) := by
  intro sources row
  induction sources with
  | nil =>
    constructor
    · simp [unpack]
    · intro s hs
      simp [List.find?] at hs
  | cons a l ih =>
    by_cases h : (row.fkOf a.column).isSome
    · have hstep : unpack (a :: l) row = .ok (row.relOf a.name) := by
        simp [unpack, h]
      constructor
      · rw [hstep]
        constructor
        · intro hk
          exact absurd hk (by simp)
        · intro hall
          have ha := hall a (List.mem_cons_self a l)
          rw [ha] at h
          simp at h
      · intro s hs
        simp only [List.find?_cons, h] at hs
        cases hs
        exact hstep
    · have hnone : row.fkOf a.column = none := Option.not_isSome_iff_eq_none.mp h
      have hstep : unpack (a :: l) row = unpack l row := by
        simp [unpack, h]
      constructor
      · rw [hstep, ih.1]
        constructor
        · intro hall s hs
          rcases List.mem_cons.mp hs with rfl | hs
          · exact hnone
          · exact hall s hs
        · intro hall s hs
          exact hall s (List.mem_cons_of_mem _ hs)
      · intro s hs
        simp only [List.find?_cons, h] at hs
        rw [hstep]
        exact ih.2 s hs

/-- The `q |= Q(...)` loop of `select_sources` leaves the accumulator at
the empty `Q` when no declared slot's attname or name is among the
requested names. -/
theorem foldl_orQ_none (names : List String) :
    ∀ sources : List SourceM,
      (∀ s ∈ sources, s.attname ∉ names ∧ s.name ∉ names) →
      sources.foldl
        (fun q s =>
          if s.attname ∈ names ∨ s.name ∈ names then
            orQ q (fun r => (r.fkOf s.attname).isSome)
          else q)
        none = none := by
  intro sources
  induction sources with
  | nil => intro _; rfl
  | cons a l ih =>
    intro h
    have ha := h a (List.mem_cons_self a l)
    have hcond : ¬(a.attname ∈ names ∨ a.name ∈ names) := by
      intro hc
      rcases hc with hc | hc
      · exact ha.1 hc
      · exact ha.2 hc
    simp only [List.foldl_cons, if_neg hcond]
    exact ih (fun s hs => h s (List.mem_cons_of_mem _ hs))

/-- C10: a `select_sources` call with a non-empty name list matching no
declared slot returns the unrestricted filter of the queryset (every
row), while a call with zero names raises. -/
theorem c10_select_sources_no_match :
    ∀ (sources : List SourceM) (rows : List RefRow) (names : List String),
      (selectSources sources rows [] =
        .error (.exception "At least one source needs to be specified")) ∧
      (names ≠ [] →
        (∀ s ∈ sources, s.attname ∉ names ∧ s.name ∉ names) →
        selectSources sources rows names = .ok rows) := by
  intro sources rows names
  constructor
  · rfl
  · intro hne hnone
    have hlen : ¬names.length = 0 := by
      simpa [List.length_eq_zero] using hne
    simp only [selectSources, if_neg hlen]
    rw [foldl_orQ_none names sources hnone]
    rfl

/-- Witness for C3 at a concrete model: with the dog slot null and the
cat slot populated, `unpack` returns the cat entity. -/
theorem c3_witness : unpack [srcDog, srcCat] rowCat = .ok (rowCat.relOf srcCat.name) :=
  (c3_unpack_first_nonnull [srcDog, srcCat] rowCat).2 srcCat (by decide)

/-- Witness for C10 at a concrete model: a name list matching neither
slot filters nothing out. -/
theorem c10_witness :
    selectSources [srcDog, srcCat] [rowCat] ["zebra"] = .ok [rowCat] :=
  (c10_select_sources_no_match [srcDog, srcCat] [rowCat] ["zebra"]).2
    (by decide) (by decide)

/-- Sum of the per-column CASE indicators equals the count of columns
satisfying the indicator predicate. -/
theorem sum_indicator_eq_countP (p : String → Bool) :
    ∀ cols : List String,
      ((cols.map (fun c => if p c then (1 : Int) else 0)).sum) = cols.countP p := by
  intro cols
  induction cols with
  | nil => simp
  | cons a l ih =>
    simp only [List.map_cons, List.sum_cons, List.countP_cons, ih]
    by_cases h : p a
    · simp only [h, if_true]
      push_cast
      omega
    · simp only [h, if_false]
      push_cast
      omega

/-- A filtered list with a member to which all its members are equal,
under nodup of the base list, is that singleton. -/
theorem filter_eq_singleton_of_unique {p : String → Bool} {cols : List String}
    (hnd : cols.Nodup) {c : String} (hc : c ∈ cols) (hpc : p c = true)
    (huniq : ∀ d ∈ cols, p d = true → d = c) :
    cols.filter p = [c] := by
  have hcf : c ∈ cols.filter p := List.mem_filter.mpr ⟨hc, hpc⟩
  have hall : ∀ x ∈ cols.filter p, x = c := by
    intro x hx
    have hm := List.mem_filter.mp hx
    exact huniq x hm.1 hm.2
  have hndf : (cols.filter p).Nodup := hnd.filter p
  cases hf : cols.filter p with
  | nil =>
    rw [hf] at hcf
    cases hcf
  | cons x t =>
    rw [hf] at hcf hall hndf
    have hx : x = c := hall x (List.mem_cons_self x t)
    subst hx
    cases t with
    | nil => rfl
    | cons y t2 =>
      have hy : y = x := hall y (by simp)
      have hnin : x ∉ y :: t2 := (List.nodup_cons.mp hndf).1
      rw [hy] at hnin
      exact absurd (by simp) hnin

/-- Counting exactly one satisfying column is the same as there being a
unique satisfying column, for a nodup column list. -/
theorem countP_eq_one_iff {p : String → Bool} {cols : List String}
    (hnd : cols.Nodup) :
    cols.countP p = 1 ↔
      ∃ c ∈ cols, p c = true ∧ ∀ d ∈ cols, p d = true → d = c := by
  rw [List.countP_eq_length_filter, List.length_eq_one]
  constructor
  · rintro ⟨c, hc⟩
    have hcmem : c ∈ cols.filter p := by
      rw [hc]
      simp
    have hm := List.mem_filter.mp hcmem
    refine ⟨c, hm.1, hm.2, ?_⟩
    intro d hd hpd
    have hdm : d ∈ cols.filter p := List.mem_filter.mpr ⟨hd, hpd⟩
    rw [hc] at hdm
    simpa using hdm
  · rintro ⟨c, hc, hpc, huniq⟩
    exact ⟨c, filter_eq_singleton_of_unique hnd hc hpc huniq⟩

/-- C2: the check expression built by `make_constraint_check` is the sum
of one CASE indicator per declared slot compared with 1, and that sum
evaluates to true on a row exactly when precisely one slot column is
non-null — and hence to false on any row with zero or two-or-more
non-null slot columns. -/
theorem c2_constraint_check (m : RefModelM) (row : String → Option Nat)
    (_hne : m.sources ≠ [])
    (hnd : (m.sources.map (fun s => s.column)).Nodup) :
    make_constraint_check m =
      " CHECK ((" ++
        String.intercalate " + "
          ((m.sources.map (fun s => s.column)).map caseTermSql) ++ ") = 1)" ∧
    (evalConstraintCheck (m.sources.map (fun s => s.column)) row = true ↔
      ∃ c ∈ m.sources.map (fun s => s.column), (row c).isSome = true ∧
        ∀ d ∈ m.sources.map (fun s => s.column), (row d).isSome = true → d = c) := by
  refine ⟨rfl, ?_⟩
  unfold evalConstraintCheck
  rw [decide_eq_true_iff]
  rw [sum_indicator_eq_countP (fun c => (row c).isSome)]
  rw [Nat.cast_eq_one]
  exact countP_eq_one_iff hnd

/-- Witness for C2 at a concrete model: with only `dog_id` non-null the
check expression holds, and the unique satisfying column is `dog_id`. -/
theorem c2_witness :
    evalConstraintCheck (mAnimal.sources.map (fun s => s.column)) rowDogOnly = true ↔
      ∃ c ∈ mAnimal.sources.map (fun s => s.column), (rowDogOnly c).isSome = true ∧
        ∀ d ∈ mAnimal.sources.map (fun s => s.column),
          (rowDogOnly d).isSome = true → d = c :=
  (c2_constraint_check mAnimal rowDogOnly (by decide) (by decide)).2

/-- C6 (code bug): on a slot with a resolved proxy expression whose
flattened tree is nonempty — as every Django expression's is, since
`flatten()` yields at least the expression itself —
`create_trigger_statement` evaluates `isinstance(c, Col)` with the name
`Col` unresolved (the module never imports it) and raises `NameError`
instead of returning the CREATE TRIGGER statement. -/
theorem c6_create_trigger_name_error :
    create_trigger_statement cmplDog [proxySound] srcDog =
      .error (.nameError "Col") := by
  decide

/-- C1: whenever proxy resolution succeeds, the SQL text returned by
`trigger_function_statement` is exactly the CREATE OR REPLACE FUNCTION
upsert the claim describes: an INSERT INTO the reference table of the
slot's FK column plus all resolved proxy target columns, with values
`NEW.<source pk>` plus the resolved expressions, falling back on
unique_violation to an UPDATE of the reference table setting the proxy
columns to the same resolved expressions WHERE the slot's FK column
equals `NEW.<source pk>`; the bound parameters are the resolved
parameters for the INSERT followed by the same parameters again for the
UPDATE. -/
theorem c1_trigger_function_upsert (compile : PExpr → ResolvedInfo)
    (proxies : List FieldProxyM) (src : SourceM)
    (tc : List String) (fc : List FTriple)
    (h : get_proxy_and_foreign_cols compile proxies src = .ok (tc, fc)) :
    trigger_function_statement compile proxies src =
      .ok (specTriggerFunctionSql src tc (fc.map (fun t => t.sql)),
        (fc.map (fun t => t.params)).flatten ++ (fc.map (fun t => t.params)).flatten) := by
  unfold trigger_function_statement
  rw [h]
  unfold specTriggerFunctionSql
  simp only [List.map_cons, List.map_map, Function.comp_def, List.flatten_cons,
    List.nil_append, String.append_assoc]

/-- Witness for C1 at a concrete slot and proxy. -/
theorem c1_witness :
    trigger_function_statement cmplDog [proxySound] srcDog =
      .ok (specTriggerFunctionSql srcDog ["bark_sound"] ["NEW.\"bark_sound\""], []) :=
  c1_trigger_function_upsert cmplDog [proxySound] srcDog
    ["bark_sound"] [tripleDog] (by decide)

/-- The proxy loop raises exactly when some selected proxy expression
compiles to a query that is not single-table over the declared source
table, and the raised error is always the multi-table one. -/
theorem gpfcGo_error_iff (compile : PExpr → ResolvedInfo) (src : SourceM)
    (ov : Nat → Option (Option PExpr)) :
    ∀ l : List FieldProxyM,
      (gpfcGo compile src ov l = .error multiTableExpressionError ↔
        ∃ p ∈ l, ∃ e, selectForeignCol ov p = some e ∧ badTables (compile e) src) := by
  intro l
  induction l with
  | nil => simp [gpfcGo]
  | cons p rest ih =>
    cases hsel : selectForeignCol ov p with
    | none =>
      simp only [gpfcGo, hsel]
      rw [ih]
      constructor
      · rintro ⟨q, hq, e, he, hb⟩
        exact ⟨q, List.mem_cons_of_mem _ hq, e, he, hb⟩
      · rintro ⟨q, hq, e, he, hb⟩
        rcases List.mem_cons.mp hq with rfl | hq
        · rw [hsel] at he
          cases he
        · exact ⟨q, hq, e, he, hb⟩
    | some e =>
      by_cases hb : badTables (compile e) src
      · simp only [gpfcGo, hsel, if_pos hb]
        constructor
        · intro _
          exact ⟨p, List.mem_cons_self p rest, e, hsel, hb⟩
        · intro _
          trivial
      · simp only [gpfcGo, hsel, if_neg hb]
        cases hrec : gpfcGo compile src ov rest with
        | error er =>
          rw [hrec] at ih
          constructor
          · intro hme
            have her : (Except.error er : Except PyErr (List String × List FTriple)) =
                .error multiTableExpressionError := by
              simpa using hme
            rcases ih.mp her with ⟨q, hq, e2, he2, hb2⟩
            exact ⟨q, List.mem_cons_of_mem _ hq, e2, he2, hb2⟩
          · rintro ⟨q, hq, e2, he2, hb2⟩
            rcases List.mem_cons.mp hq with rfl | hq
            · rw [hsel] at he2
              cases he2
              exact absurd hb2 hb
            · have := ih.mpr ⟨q, hq, e2, he2, hb2⟩
              simpa using this
        | ok pr =>
          obtain ⟨tc0, fc0⟩ := pr
          rw [hrec] at ih
          constructor
          · intro hme
            simp at hme
          · rintro ⟨q, hq, e2, he2, hb2⟩
            rcases List.mem_cons.mp hq with rfl | hq
            · rw [hsel] at he2
              cases he2
              exact absurd hb2 hb
            · exact absurd (ih.mpr ⟨q, hq, e2, he2, hb2⟩) (by simp)

/-- C5 (amended): `get_proxy_and_foreign_cols` raises a
MultiTableExpressionError exactly when some selected proxy expression
compiles to a query touching more than one table or not touching the
declared source table, and the generation itself executes no SQL; but
because statement generation is lazy and interleaved with execution,
in the DDL-application flow the constraint and index statements have
already been executed against the database by the time the error is
raised (shown here for a one-slot entity). -/
theorem c5_multi_table_error :
    (∀ (compile : PExpr → ResolvedInfo) (proxies : List FieldProxyM) (src : SourceM),
      get_proxy_and_foreign_cols compile proxies src = .error multiTableExpressionError ↔
        ∃ p ∈ proxies, ∃ e,
          selectForeignCol (buildOverrides src.sid proxies) p = some e ∧
          badTables (compile e) src) ∧
    (∀ (compile : PExpr → ResolvedInfo) (m : RefModelM) (s : SourceM),
      m.sources = [s] →
      (∃ p ∈ m.proxies, ∃ e,
        selectForeignCol (buildOverrides s.sid m.proxies) p = some e ∧
        badTables (compile e) s) →
      run_sql_statements compile m =
        ([make_drop_constraint_statement m, make_add_constaint_statement m,
          index_statement s], .error multiTableExpressionError)) := by
  constructor
  · intro compile proxies src
    exact gpfcGo_error_iff compile src (buildOverrides src.sid proxies) proxies
  · intro compile m s hs hbad
    have herr : get_proxy_and_foreign_cols compile m.proxies s =
        .error multiTableExpressionError :=
      (gpfcGo_error_iff compile s (buildOverrides s.sid m.proxies) m.proxies).mpr hbad
    have hfn : trigger_function_statement compile m.proxies s =
        .error multiTableExpressionError := by
      unfold trigger_function_statement
      rw [herr]
    unfold run_sql_statements gen_all_chunks
    rw [hs]
    simp only [List.map_cons, List.map_nil, List.cons_append, List.nil_append]
    unfold gen_trigger_chunk
    rw [hfn]
    rfl

set_option maxRecDepth 8000 in
/-- Counterexample to C5 as stated: with one slot and a multi-table
proxy expression, DDL application executes the drop-constraint,
add-constraint and index statements against the database and only then
raises, so the error is not raised before any SQL statement is
executed. -/
theorem c5_counterexample :
    run_sql_statements cmplMulti mMulti =
      ([stmtDropC, stmtAddC, stmtIdx], .error multiTableExpressionError) ∧
    (run_sql_statements cmplMulti mMulti).1 ≠ [] := by
  constructor
  · decide
  · decide

/-- Witness for C5 (amended) at a concrete one-slot model. -/
theorem c5_witness :
    run_sql_statements cmplMulti mMulti =
      ([make_drop_constraint_statement mMulti, make_add_constaint_statement mMulti,
        index_statement srcDog], .error multiTableExpressionError) :=
  c5_multi_table_error.2 cmplMulti mMulti srcDog rfl
    ⟨proxySound, by decide, .colName "bark_sound", by decide, by decide⟩

/-- Sequencing the per-source index chunks prepends one index statement
per source to whatever the remaining chunks produce. -/
theorem seqChunks_index_chunks (sources : List SourceM)
    (rest : List (Except PyErr (List Stmt))) :
    seqChunks (sources.map (fun s => .ok [index_statement s]) ++ rest) =
      match seqChunks rest with
      | .error e => .error e
      | .ok lr => .ok (sources.map index_statement ++ lr) := by
  induction sources with
  | nil =>
    simp only [List.map_nil, List.nil_append]
    cases seqChunks rest <;> simp
  | cons s t ih =>
    simp only [List.map_cons, List.cons_append, seqChunks, List.append_eq,
      List.nil_append]
    rw [ih]
    cases hr : seqChunks rest <;> simp

/-- A successful sequencing of the per-source trigger chunks yields, per
source in order, the CREATE OR REPLACE FUNCTION statement, then the
drop-trigger statement, then the create-trigger statement. -/
theorem seqChunks_trigger_chunks (compile : PExpr → ResolvedInfo)
    (proxies : List FieldProxyM) :
    ∀ (sources : List SourceM) (L : List Stmt),
      seqChunks (sources.map (gen_trigger_chunk compile proxies)) = .ok L →
      ∃ trigs : List (List Stmt),
        L = trigs.flatten ∧
        List.Forall₂
          (fun s ts => ∃ fn ct,
            trigger_function_statement compile proxies s = .ok fn ∧
            create_trigger_statement compile proxies s = .ok ct ∧
            ts = [fn, drop_trigger_statement s, ct])
          sources trigs := by
  intro sources
  induction sources with
  | nil =>
    intro L hL
    simp only [List.map_nil, seqChunks] at hL
    cases hL
    exact ⟨[], by simp, List.Forall₂.nil⟩
  | cons s t ih =>
    intro L hL
    simp only [List.map_cons, seqChunks] at hL
    cases hchunk : gen_trigger_chunk compile proxies s with
    | error e =>
      rw [hchunk] at hL
      simp at hL
    | ok l1 =>
      rw [hchunk] at hL
      cases hrest : seqChunks (t.map (gen_trigger_chunk compile proxies)) with
      | error e =>
        rw [hrest] at hL
        simp at hL
      | ok L2 =>
        rw [hrest] at hL
        simp only [] at hL
        have hLeq : L = l1 ++ L2 := by
          cases hL
          rfl
        obtain ⟨trigs, hflat, hf2⟩ := ih L2 hrest
        unfold gen_trigger_chunk at hchunk
        cases hfn : trigger_function_statement compile proxies s with
        | error e =>
          rw [hfn] at hchunk
          cases hchunk
        | ok fn =>
          rw [hfn] at hchunk
          cases hct : create_trigger_statement compile proxies s with
          | error e =>
            rw [hct] at hchunk
            cases hchunk
          | ok ct =>
            rw [hct] at hchunk
            cases hchunk
            refine ⟨[fn, drop_trigger_statement s, ct] :: trigs, ?_, ?_⟩
            · rw [hLeq, hflat]
              simp
            · exact List.Forall₂.cons ⟨fn, ct, hfn, hct, rfl⟩ hf2

/-- C8 (amended): a successful full DDL generation emits, in order, the
drop-constraint statement, the add-constraint statement, the unique
index statement per declared ReferenceSource, and then per declared
ReferenceSource the CREATE OR REPLACE FUNCTION statement for the
trigger function followed by the drop-trigger statement and the
create-trigger statement; no separate drop of the trigger function is
emitted. -/
theorem c8_statement_order (compile : PExpr → ResolvedInfo) (m : RefModelM)
    (l : List Stmt)
    (h : gen_all_statements compile m = .ok l) :
    ∃ trigs : List (List Stmt),
      l = make_drop_constraint_statement m :: make_add_constaint_statement m ::
        (m.sources.map index_statement ++ trigs.flatten) ∧
      List.Forall₂
        (fun s ts => ∃ fn ct,
          trigger_function_statement compile m.proxies s = .ok fn ∧
          create_trigger_statement compile m.proxies s = .ok ct ∧
          ts = [fn, drop_trigger_statement s, ct])
        m.sources trigs := by
  unfold gen_all_statements gen_all_chunks at h
  simp only [List.cons_append, List.nil_append, seqChunks, List.append_eq] at h
  rw [seqChunks_index_chunks] at h
  cases htr : seqChunks (m.sources.map (gen_trigger_chunk compile m.proxies)) with
  | error e =>
    rw [htr] at h
    simp at h
  | ok L =>
    rw [htr] at h
    simp only [] at h
    obtain ⟨trigs, hflat, hf2⟩ :=
      seqChunks_trigger_chunks compile m.proxies m.sources L htr
    refine ⟨trigs, ?_, hf2⟩
    have hl : make_drop_constraint_statement m :: make_add_constaint_statement m ::
        (m.sources.map index_statement ++ L) = l := by
      cases h
      simp
    rw [← hl, hflat]

set_option maxRecDepth 8000 in
/-- Counterexample to C8 as stated: for a one-slot entity the statement
right after the index statements (position 3) is the CREATE OR REPLACE
FUNCTION statement — the creation of the trigger function precedes the
drop of the trigger — and no generated statement drops a trigger
function at all. -/
theorem c8_counterexample :
    gen_all_statements cmplPlain mPlain = .ok stmtsPlain ∧
    stmtsPlain[3]? = some
      ("CREATE OR REPLACE FUNCTION update_dogs_animal_() RETURNS trigger as $$ BEGIN BEGIN INSERT INTO animal(dog_id) VALUES (NEW.id); EXCEPTION WHEN unique_violation THEN UPDATE animal SET () = () WHERE dog_id = NEW.id; END; RETURN NEW; END $$ LANGUAGE plpgsql;", []) ∧
    stmtsPlain.all (fun st => !(containsSub ("DROP FUNCTION".data) st.1.data)) = true := by
  refine ⟨by decide, by decide, by decide⟩

set_option maxRecDepth 8000 in
/-- Witness for C8 (amended) at the concrete one-slot model. -/
theorem c8_witness :
    ∃ trigs : List (List Stmt),
      stmtsPlain = make_drop_constraint_statement mPlain ::
        make_add_constaint_statement mPlain ::
        (mPlain.sources.map index_statement ++ trigs.flatten) ∧
      List.Forall₂
        (fun s ts => ∃ fn ct,
          trigger_function_statement cmplPlain mPlain.proxies s = .ok fn ∧
          create_trigger_statement cmplPlain mPlain.proxies s = .ok ct ∧
          ts = [fn, drop_trigger_statement s, ct])
        mPlain.sources trigs :=
  c8_statement_order cmplPlain mPlain stmtsPlain (by decide)

/-- Folding the `foreign_fields` entry scan with last-write-wins
accumulator semantics computes `lookupLast` relative to a seed. -/
theorem lookupAux (sid : Nat) :
    ∀ (l : List (Nat × Option PExpr)) (acc : Option (Option PExpr)),
      l.foldl (fun a kv => if kv.1 = sid then some kv.2 else a) acc =
        match lookupLast sid l with
        | some v => some v
        | none => acc := by
  intro l
  induction l with
  | nil =>
    intro acc
    rfl
  | cons kv t ih =>
    intro acc
    have hcons : lookupLast sid (kv :: t) =
        t.foldl (fun a kv => if kv.1 = sid then some kv.2 else a)
          (if kv.1 = sid then some kv.2 else none) := rfl
    rw [List.foldl_cons, ih, hcons, ih]
    cases hl : lookupLast sid t with
    | some v => rfl
    | none =>
      by_cases hk : kv.1 = sid <;> simp [hk]

/-- The inner dict-building fold of one proxy only touches the key of
that proxy's reference field, where it stores the last matching
`foreign_fields` entry for the current slot. -/
theorem innerFold_apply (sid fid : Nat) :
    ∀ (l : List (Nat × Option PExpr)) (acc : Nat → Option (Option PExpr)) (k : Nat),
      (l.foldl
        (fun acc2 kv =>
          if kv.1 = sid then
            fun k2 => if k2 = fid then some kv.2 else acc2 k2
          else acc2)
        acc) k =
      (if k = fid then
        match lookupLast sid l with
        | some v => some v
        | none => acc k
      else acc k) := by
  intro l
  induction l with
  | nil =>
    intro acc k
    by_cases hk : k = fid <;> simp [hk, lookupLast]
  | cons kv t ih =>
    intro acc k
    rw [List.foldl_cons, ih]
    have hcons : lookupLast sid (kv :: t) =
        t.foldl (fun a kv => if kv.1 = sid then some kv.2 else a)
          (if kv.1 = sid then some kv.2 else none) := rfl
    rw [hcons, lookupAux sid t]
    by_cases hs : kv.1 = sid <;> by_cases hk : k = fid <;>
      cases lookupLast sid t <;> simp [hs, hk]

/-- Pointwise description of one `ovStep`. -/
theorem ovStep_apply (sid : Nat) (acc : Nat → Option (Option PExpr))
    (p : FieldProxyM) (k : Nat) :
    ovStep sid acc p k =
      (if k = p.fid then
        match lookupLast sid p.foreignFields with
        | some v => some v
        | none => acc k
      else acc k) := by
  unfold ovStep
  by_cases he : p.foreignFields.isEmpty
  · have hnil : p.foreignFields = [] := List.isEmpty_iff.mp he
    rw [hnil]
    simp [lookupLast]
  · simp only [he, if_false]
    exact innerFold_apply sid p.fid p.foreignFields acc k

/-- Proxies whose reference-field identity differs from `k` leave the
overrides dict unchanged at `k`. -/
theorem foldl_ovStep_preserve (sid : Nat) :
    ∀ (L : List FieldProxyM) (acc : Nat → Option (Option PExpr)) (k : Nat),
      (∀ q ∈ L, q.fid ≠ k) →
      (L.foldl (ovStep sid) acc) k = acc k := by
  intro L
  induction L with
  | nil =>
    intro acc k _
    rfl
  | cons q t ih =>
    intro acc k h
    rw [List.foldl_cons, ih _ k (fun r hr => h r (List.mem_cons_of_mem _ hr))]
    rw [ovStep_apply]
    have hk : ¬k = q.fid := fun hk => h q (List.mem_cons_self q t) hk.symm
    simp [hk]

/-- With pairwise-distinct reference-field identities, the overrides
dict at a proxy's own key is exactly that proxy's own last declared
`foreign_fields` entry for the slot. -/
theorem buildOverrides_eq_own (sid : Nat) (ps : List FieldProxyM)
    (p : FieldProxyM) (hmem : p ∈ ps)
    (hnd : (ps.map (fun q => q.fid)).Nodup) :
    buildOverrides sid ps p.fid = lookupLast sid p.foreignFields := by
  obtain ⟨l₁, l₂, rfl⟩ := List.append_of_mem hmem
  rw [List.map_append, List.map_cons] at hnd
  have hnd2 := List.nodup_append.mp hnd
  have h1 : ∀ q ∈ l₁, q.fid ≠ p.fid := by
    intro q hq heq
    exact hnd2.2.2 (List.mem_map_of_mem _ hq) (by simp [heq])
  have h2 : ∀ q ∈ l₂, q.fid ≠ p.fid := by
    intro q hq heq
    have hni := (List.nodup_cons.mp hnd2.2.1).1
    exact hni (heq ▸ List.mem_map_of_mem (fun q => q.fid) hq)
  unfold buildOverrides
  rw [List.foldl_append, List.foldl_cons]
  rw [foldl_ovStep_preserve sid l₂ _ p.fid h2]
  rw [ovStep_apply]
  simp only [if_pos rfl]
  rw [foldl_ovStep_preserve sid l₁ _ p.fid h1]
  cases lookupLast sid p.foreignFields <;> rfl

/-- Consequently the code's per-proxy selection agrees with the claim's
per-proxy selection rule. -/
theorem selectForeignCol_eq_specSelect (sid : Nat) (ps : List FieldProxyM)
    (p : FieldProxyM) (hmem : p ∈ ps)
    (hnd : (ps.map (fun q => q.fid)).Nodup) :
    selectForeignCol (buildOverrides sid ps) p = specSelect sid p := by
  unfold selectForeignCol specSelect
  rw [buildOverrides_eq_own sid ps p hmem hnd]

/-- Structure of a successful proxy loop: both output sequences are the
two projections of one list of (proxy, selected expression) pairs taken
in declaration order. -/
theorem gpfcGo_ok_eq (compile : PExpr → ResolvedInfo) (src : SourceM)
    (ov : Nat → Option (Option PExpr)) :
    ∀ (l : List FieldProxyM) (tc : List String) (fc : List FTriple),
      gpfcGo compile src ov l = .ok (tc, fc) →
      tc = (l.filterMap (fun p => (selectForeignCol ov p).map (fun e => (p, e)))).map
            (fun pe => foreignColumnOf pe.1) ∧
      fc = (l.filterMap (fun p => (selectForeignCol ov p).map (fun e => (p, e)))).map
            (fun pe => resolveTriple compile src pe.2) := by
  intro l
  induction l with
  | nil =>
    intro tc fc h
    simp only [gpfcGo] at h
    cases h
    simp
  | cons p rest ih =>
    intro tc fc h
    cases hsel : selectForeignCol ov p with
    | none =>
      rw [show gpfcGo compile src ov (p :: rest) = gpfcGo compile src ov rest from by
        simp [gpfcGo, hsel]] at h
      have hrest := ih tc fc h
      simp only [List.filterMap_cons, hsel, Option.map_none]
      exact hrest
    | some e =>
      simp only [gpfcGo, hsel] at h
      by_cases hb : badTables (compile e) src
      · rw [if_pos hb] at h
        simp at h
      · rw [if_neg hb] at h
        cases hrec : gpfcGo compile src ov rest with
        | error er =>
          rw [hrec] at h
          simp at h
        | ok pr =>
          obtain ⟨tc0, fc0⟩ := pr
          rw [hrec] at h
          simp only [Except.ok.injEq, Prod.mk.injEq] at h
          obtain ⟨htc, hfc⟩ := h
          obtain ⟨ihtc, ihfc⟩ := ih tc0 fc0 hrec
          constructor
          · rw [← htc, ihtc]
            simp [List.filterMap_cons, hsel]
          · rw [← hfc, ihfc]
            simp [List.filterMap_cons, hsel]

/-- C9: on success the two sequences returned by
`get_proxy_and_foreign_cols` have equal length and are, index by index,
the target column and the resolved triple of one and the same proxy,
with proxies processed in declaration order and each contributing its
per-source override expression when one is declared for the slot, else
its default source-column name, under pairwise-distinct reference-field
identities. -/
theorem c9_parallel_sequences (compile : PExpr → ResolvedInfo)
    (ps : List FieldProxyM) (src : SourceM)
    (tc : List String) (fc : List FTriple)
    (hnd : (ps.map (fun q => q.fid)).Nodup)
    (h : get_proxy_and_foreign_cols compile ps src = .ok (tc, fc)) :
    tc = (ps.filterMap (fun p => (specSelect src.sid p).map (fun e => (p, e)))).map
          (fun pe => foreignColumnOf pe.1) ∧
    fc = (ps.filterMap (fun p => (specSelect src.sid p).map (fun e => (p, e)))).map
          (fun pe => resolveTriple compile src pe.2) ∧
    tc.length = fc.length := by
  have hchar := gpfcGo_ok_eq compile src (buildOverrides src.sid ps) ps tc fc h
  have hcong : ps.filterMap
        (fun p => (selectForeignCol (buildOverrides src.sid ps) p).map (fun e => (p, e))) =
      ps.filterMap (fun p => (specSelect src.sid p).map (fun e => (p, e))) := by
    apply List.filterMap_congr
    intro q hq
    rw [selectForeignCol_eq_specSelect src.sid ps q hq hnd]
  rw [hcong] at hchar
  refine ⟨hchar.1, hchar.2, ?_⟩
  rw [hchar.1, hchar.2]
  simp

/-- Witness for C9 at a concrete model with a default proxy, an
overriding proxy and a skipped (`None`-override) proxy. -/
theorem c9_witness :
    (["bark_sound", "nick"] : List String) =
      (psW.filterMap (fun p => (specSelect srcDog.sid p).map (fun e => (p, e)))).map
        (fun pe => foreignColumnOf pe.1) ∧
    ([tripleDog, tripleDog] : List FTriple) =
      (psW.filterMap (fun p => (specSelect srcDog.sid p).map (fun e => (p, e)))).map
        (fun pe => resolveTriple cmplDog srcDog pe.2) ∧
    (["bark_sound", "nick"] : List String).length =
      ([tripleDog, tripleDog] : List FTriple).length :=
  c9_parallel_sequences cmplDog psW srcDog ["bark_sound", "nick"] [tripleDog, tripleDog]
    (by decide) (by decide)


/-- Boolean prefix test agrees with the existence of a completing
suffix. -/
theorem isPrefixOf_iff :
    ∀ (a b : List Char), a.isPrefixOf b = true ↔ ∃ t, a ++ t = b := by
  intro a
  induction a with
  | nil =>
    intro b
    simp [List.isPrefixOf]
  | cons x xs ih =>
    intro b
    cases b with
    | nil => simp [List.isPrefixOf]
    | cons y ys =>
      simp only [List.isPrefixOf, Bool.and_eq_true, beq_iff_eq]
      rw [ih ys]
      constructor
      · rintro ⟨rfl, t, rfl⟩
        exact ⟨t, rfl⟩
      · rintro ⟨t, ht⟩
        rw [List.cons_append] at ht
        cases ht
        exact ⟨rfl, t, rfl⟩

/-- The executable substring test agrees with the occurrence
predicate. -/
theorem containsSub_iff (pat : List Char) :
    ∀ s : List Char, containsSub pat s = true ↔ sub pat s := by
  intro s
  induction s with
  | nil =>
    simp only [containsSub, List.isEmpty_iff]
    constructor
    · rintro rfl
      exact ⟨[], [], rfl⟩
    · rintro ⟨l, r, hlr⟩
      have h2 := hlr.symm
      rw [List.append_assoc] at h2
      rcases List.append_eq_nil.mp h2 with ⟨rfl, h3⟩
      rcases List.append_eq_nil.mp h3 with ⟨rfl, rfl⟩
      rfl
  | cons c rest ih =>
    simp only [containsSub, Bool.or_eq_true]
    rw [isPrefixOf_iff, ih]
    constructor
    · rintro (⟨t, ht⟩ | hsub)
      · exact ⟨[], t, by simp [← ht]⟩
      · rcases hsub with ⟨l, r, hr⟩
        exact ⟨c :: l, r, by simp [hr]⟩
    · rintro ⟨l, r, hl⟩
      cases l with
      | nil =>
        left
        exact ⟨r, by simpa using hl.symm⟩
      | cons x xs =>
        right
        rw [List.cons_append, List.cons_append] at hl
        cases hl
        exact ⟨xs, r, rfl⟩

/-- An occurrence in a concatenation lies in the left part, in the
right part, or straddles the boundary with nonempty pieces on both
sides. -/
theorem sub_append (pat A B : List Char) (h : sub pat (A ++ B)) :
    sub pat A ∨ sub pat B ∨
      ∃ a b, pat = a ++ b ∧ a ≠ [] ∧ b ≠ [] ∧
        (∃ t, t ++ a = A) ∧ ∃ t, b ++ t = B := by
  rcases h with ⟨l, r, hlr⟩
  have h1 : l ++ (pat ++ r) = A ++ B := by
    rw [← List.append_assoc, ← hlr]
  rcases List.append_eq_append_iff.mp h1 with ⟨a2, hA, hpr⟩ | ⟨c2, _, hB⟩
  · rcases List.append_eq_append_iff.mp hpr with ⟨b2, ha2, _⟩ | ⟨q2, hpat, hB2⟩
    · left
      exact ⟨l, b2, by rw [hA, ha2, List.append_assoc]⟩
    · cases a2 with
      | nil =>
        right
        left
        simp only [List.nil_append] at hpat
        exact ⟨[], r, by rw [hB2, ← hpat]; rfl⟩
      | cons a0 as =>
        cases q2 with
        | nil =>
          left
          rw [List.append_nil] at hpat
          exact ⟨l, [], by rw [hA, ← hpat, List.append_nil]⟩
        | cons q0 qs =>
          right
          right
          exact ⟨a0 :: as, q0 :: qs, hpat, by simp, by simp, ⟨l, hA.symm⟩, ⟨r, hB2.symm⟩⟩
  · right
    left
    exact ⟨c2, r, by rw [hB, List.append_assoc]⟩

/-- The chunk decomposition is never empty. -/
theorem splitGo_ne_nil (p : Char) (ps : List Char) :
    ∀ (fuel : Nat) (s : List Char), splitGo p ps fuel s ≠ [] := by
  intro fuel
  induction fuel with
  | zero =>
    intro s
    cases s <;> simp [splitGo]
  | succ n ih =>
    intro s
    cases s with
    | nil => simp [splitGo]
    | cons c rest =>
      by_cases hpre : (p :: ps).isPrefixOf (c :: rest)
      · simp [splitGo, hpre]
      · simp only [splitGo, hpre, if_false]
        cases hsp : splitGo p ps n rest with
        | nil => exact absurd hsp (ih rest)
        | cons h t => simp

/-- The replacement is the interleaving of the replacement text between
the kept chunks. -/
theorem repGo_eq_joinSep (p : Char) (ps new : List Char) :
    ∀ (fuel : Nat) (s : List Char), s.length ≤ fuel →
      repGo p ps new fuel s = joinSep new (splitGo p ps fuel s) := by
  intro fuel
  induction fuel with
  | zero =>
    intro s hs
    have hnil : s = [] := List.eq_nil_of_length_eq_zero (Nat.le_zero.mp hs)
    subst hnil
    rfl
  | succ n ih =>
    intro s hs
    cases s with
    | nil => rfl
    | cons c rest =>
      have hr : rest.length ≤ n := by
        simp only [List.length_cons] at hs
        omega
      by_cases hpre : (p :: ps).isPrefixOf (c :: rest)
      · have hd : (rest.drop ps.length).length ≤ n := by
          rw [List.length_drop]
          omega
        simp only [repGo, splitGo, hpre, if_true]
        rw [ih _ hd]
        cases hsp : splitGo p ps n (rest.drop ps.length) with
        | nil => exact absurd hsp (splitGo_ne_nil p ps n _)
        | cons h t => simp [joinSep]
      · simp only [repGo, splitGo, hpre, if_false]
        rw [ih rest hr]
        cases hsp : splitGo p ps n rest with
        | nil => exact absurd hsp (splitGo_ne_nil p ps n rest)
        | cons h t =>
          cases t with
          | nil => simp [joinSep]
          | cons y t2 => simp [joinSep]

/-- The first kept chunk is a prefix of the scanned text. -/
theorem splitGo_head_pfx (p : Char) (ps : List Char) :
    ∀ (fuel : Nat) (s h : List Char) (t : List (List Char)),
      splitGo p ps fuel s = h :: t → ∃ u, h ++ u = s := by
  intro fuel
  induction fuel with
  | zero =>
    intro s h t hsp
    cases s with
    | nil =>
      cases hsp
      exact ⟨[], rfl⟩
    | cons c rest =>
      cases hsp
      exact ⟨[], by simp⟩
  | succ n ih =>
    intro s h t hsp
    cases s with
    | nil =>
      cases hsp
      exact ⟨[], rfl⟩
    | cons c rest =>
      by_cases hpre : (p :: ps).isPrefixOf (c :: rest)
      · rw [show splitGo p ps (n + 1) (c :: rest) =
            [] :: splitGo p ps n (rest.drop ps.length) from by
          simp [splitGo, hpre]] at hsp
        cases hsp
        exact ⟨c :: rest, rfl⟩
      · rw [show splitGo p ps (n + 1) (c :: rest) =
            (splitGo p ps n rest).modifyHead (fun h => c :: h) from by
          simp [splitGo, hpre]] at hsp
        cases hsp2 : splitGo p ps n rest with
        | nil => exact absurd hsp2 (splitGo_ne_nil p ps n rest)
        | cons h2 t2 =>
          rw [hsp2] at hsp
          simp only [List.modifyHead] at hsp
          obtain ⟨hh, ht⟩ := List.cons_eq_cons.mp hsp.symm
          obtain ⟨u, hu⟩ := ih rest h2 t2 hsp2
          exact ⟨u, by rw [hh, List.cons_append, hu]⟩

/-- A nonempty pattern does not occur in the empty text. -/
theorem sub_nil_pat (p : Char) (ps : List Char) : ¬ sub (p :: ps) [] := by
  rintro ⟨l, r, hlr⟩
  have h2 := hlr.symm
  rw [List.append_assoc] at h2
  rcases List.append_eq_nil.mp h2 with ⟨rfl, h3⟩
  rcases List.append_eq_nil.mp h3 with ⟨h4, rfl⟩
  cases h4

/-- No kept chunk contains an occurrence of the pattern: the greedy
scan would have matched there and ended the chunk. -/
theorem splitGo_no_sub (p : Char) (ps : List Char) :
    ∀ (fuel : Nat) (s : List Char), s.length ≤ fuel →
      ∀ ch ∈ splitGo p ps fuel s, ¬ sub (p :: ps) ch := by
  intro fuel
  induction fuel with
  | zero =>
    intro s hs ch hch
    have hnil : s = [] := List.eq_nil_of_length_eq_zero (Nat.le_zero.mp hs)
    subst hnil
    have hc : ch = [] := by simpa [splitGo] using hch
    subst hc
    exact sub_nil_pat p ps
  | succ n ih =>
    intro s hs ch hch
    cases s with
    | nil =>
      have hc : ch = [] := by simpa [splitGo] using hch
      subst hc
      exact sub_nil_pat p ps
    | cons c rest =>
      have hr : rest.length ≤ n := by
        simp only [List.length_cons] at hs
        omega
      by_cases hpre : (p :: ps).isPrefixOf (c :: rest)
      · rw [show splitGo p ps (n + 1) (c :: rest) =
            [] :: splitGo p ps n (rest.drop ps.length) from by
          simp [splitGo, hpre]] at hch
        rcases List.mem_cons.mp hch with rfl | hch2
        · exact sub_nil_pat p ps
        · have hd : (rest.drop ps.length).length ≤ n := by
            rw [List.length_drop]
            omega
          exact ih (rest.drop ps.length) hd ch hch2
      · rw [show splitGo p ps (n + 1) (c :: rest) =
            (splitGo p ps n rest).modifyHead (fun h => c :: h) from by
          simp [splitGo, hpre]] at hch
        cases hsp2 : splitGo p ps n rest with
        | nil => exact absurd hsp2 (splitGo_ne_nil p ps n rest)
        | cons h2 t2 =>
          rw [hsp2] at hch
          simp only [List.modifyHead] at hch
          rcases List.mem_cons.mp hch with rfl | hch2
          · rintro ⟨l, r, hlr⟩
            cases l with
            | nil =>
              rw [List.nil_append, List.cons_append] at hlr
              obtain ⟨hc, hh2⟩ := List.cons_eq_cons.mp hlr
              obtain ⟨u, hu⟩ := splitGo_head_pfx p ps n rest h2 t2 hsp2
              apply hpre
              rw [isPrefixOf_iff]
              refine ⟨r ++ u, ?_⟩
              rw [List.cons_append, hc]
              congr 1
              rw [← hu, hh2, List.append_assoc]
            | cons x xs =>
              rw [List.cons_append, List.cons_append] at hlr
              obtain ⟨hcx, hh2⟩ := List.cons_eq_cons.mp hlr
              refine ih rest hr h2 (by rw [hsp2]; exact List.mem_cons_self h2 t2) ?_
              exact ⟨xs, r, by rw [hh2, List.append_assoc]⟩
          · exact ih rest hr ch (by rw [hsp2]; exact List.mem_cons_of_mem _ hch2)

/-- If the separator is nonempty, shares no character with the pattern,
and no chunk contains the pattern, then the interleaving contains no
occurrence of the pattern. -/
theorem joinSep_no_sub (p : Char) (ps sep : List Char) (hne : sep ≠ [])
    (hd : ∀ c ∈ sep, c ∉ p :: ps) :
    ∀ chunks : List (List Char),
      (∀ ch ∈ chunks, ¬ sub (p :: ps) ch) →
      ¬ sub (p :: ps) (joinSep sep chunks) := by
  intro chunks
  induction chunks with
  | nil =>
    intro _ hsub
    exact sub_nil_pat p ps hsub
  | cons x chunks2 ih =>
    intro hch
    cases chunks2 with
    | nil =>
      simpa [joinSep] using hch x (List.mem_cons_self x [])
    | cons y rest =>
      intro hsub
      rw [show joinSep sep (x :: y :: rest) = x ++ (sep ++ joinSep sep (y :: rest)) from by
        simp [joinSep, List.append_assoc]] at hsub
      rcases sub_append (p :: ps) x (sep ++ joinSep sep (y :: rest)) hsub with
        hx | hrest | ⟨a, b, hpat, ha, hb, ⟨t1, ht1⟩, t2, ht2⟩
      · exact hch x (List.mem_cons_self x _) hx
      · rcases sub_append (p :: ps) sep (joinSep sep (y :: rest)) hrest with
          hsep | hjoin | ⟨a, b, hpat, ha, hb, ⟨t1, ht1⟩, t2, ht2⟩
        · rcases hsep with ⟨l, r, hlr⟩
          have hp : p ∈ sep := by
            rw [hlr]
            simp
          exact hd p hp (List.mem_cons_self p ps)
        · exact ih (fun ch hm => hch ch (List.mem_cons_of_mem _ hm)) hjoin
        · cases a with
          | nil => exact ha rfl
          | cons a0 as =>
            rw [List.cons_append] at hpat
            obtain ⟨hp0, _⟩ := List.cons_eq_cons.mp hpat
            have hmem : a0 ∈ sep := by
              rw [← ht1]
              simp
            rw [← hp0] at hmem
            exact hd p hmem (List.mem_cons_self p ps)
      · cases b with
        | nil => exact hb rfl
        | cons b0 bs =>
          cases hsp : sep with
          | nil => exact hne hsp
          | cons s0 ss =>
            rw [hsp, List.cons_append, List.cons_append] at ht2
            obtain ⟨hb0, _⟩ := List.cons_eq_cons.mp ht2
            have hbp : b0 ∈ p :: ps := by
              rw [hpat]
              exact List.mem_append_right a (List.mem_cons_self b0 bs)
            rw [hb0] at hbp
            exact hd s0 (by rw [hsp]; exact List.mem_cons_self s0 ss) hbp

/-- The greedy replacement leaves no occurrence of the pattern when the
replacement text is nonempty and disjoint from the pattern's
characters. -/
theorem repGo_no_sub (p : Char) (ps new : List Char) (s : List Char)
    (hne : new ≠ []) (hd : ∀ c ∈ new, c ∉ p :: ps) :
    ¬ sub (p :: ps) (repGo p ps new s.length s) := by
  rw [repGo_eq_joinSep p ps new s.length s (le_refl _)]
  exact joinSep_no_sub p ps new hne hd _
    (splitGo_no_sub p ps s.length s (le_refl _))

theorem pythonReplace_no_sub (s pat new : String)
    (hp : pat.data ≠ []) (hne : new.data ≠ [])
    (hd : ∀ c ∈ new.data, c ∉ pat.data) :
    containsSub pat.data (pythonReplace s pat new).data = false := by
  cases hpd : pat.data with
  | nil => exact absurd hpd hp
  | cons p ps =>
    have hrep : (pythonReplace s pat new).data =
        repGo p ps new.data s.data.length s.data := by
      simp [pythonReplace, hpd]
    rw [hrep]
    rw [hpd] at hd
    have hnosub := repGo_no_sub p ps new.data s.data hne hd
    cases hb : containsSub (p :: ps) (repGo p ps new.data s.data.length s.data) with
    | false => rfl
    | true => exact absurd ((containsSub_iff (p :: ps) _).mp hb) hnosub

/-- Character-level shape of the quoted table name. -/
theorem quoteName_data (x : String) :
    (quoteName x).data = '\"' :: (x.data ++ ['\"']) := rfl

/-- Every resolved triple stores the compiled SQL post-processed by the
quoted-table-name replacement. -/
theorem get_pfc_sql_replaced (compile : PExpr → ResolvedInfo)
    (ps : List FieldProxyM) (src : SourceM)
    (tc : List String) (fc : List FTriple)
    (h : get_proxy_and_foreign_cols compile ps src = .ok (tc, fc)) :
    ∀ t ∈ fc, ∃ e,
      t.sql = pythonReplace (compile e).sql (quoteName src.sourceTable) "NEW" := by
  intro t ht
  obtain ⟨_, hfc⟩ := gpfcGo_ok_eq compile src (buildOverrides src.sid ps) ps tc fc h
  rw [hfc] at ht
  rcases List.mem_map.mp ht with ⟨pe, _, rfl⟩
  exact ⟨pe.2, rfl⟩

/-- C7 (amended): on successful resolution every stored SQL text is the
compiled SQL with every greedily scanned double-quoted occurrence of
the source table name replaced by NEW, and whenever no character of the
quoted table name occurs in the replacement text NEW — in particular
for any table name without the uppercase letters N, E, W — the stored
SQL contains no double-quoted occurrence of the source table name. -/
theorem c7_replace_quoted (compile : PExpr → ResolvedInfo)
    (ps : List FieldProxyM) (src : SourceM)
    (tc : List String) (fc : List FTriple)
    (h : get_proxy_and_foreign_cols compile ps src = .ok (tc, fc))
    (hd : ∀ c ∈ ("NEW" : String).data, c ∉ (quoteName src.sourceTable).data) :
    ∀ t ∈ fc, containsSub (quoteName src.sourceTable).data t.sql.data = false := by
  intro t ht
  obtain ⟨e, hsql⟩ := get_pfc_sql_replaced compile ps src tc fc h t ht
  rw [hsql]
  apply pythonReplace_no_sub
  · rw [quoteName_data]
    simp
  · decide
  · exact hd

/-- Counterexample to C7 as stated: for the source table `aNEWb` and
compiled SQL quote a quote aNEWb quote b quote, the replacement of the
quoted table name by NEW glues the kept fragments into a fresh
`\"aNEWb\"`, so the stored SQL still contains a double-quoted occurrence
of the source table name. -/
theorem c7_counterexample :
    get_proxy_and_foreign_cols cmplTricky [proxyC] srcTricky =
      .ok (["c"], [⟨"\"aNEWb\"", [], []⟩]) ∧
    containsSub (quoteName srcTricky.sourceTable).data
      (("\"aNEWb\"" : String).data) = true := by
  refine ⟨by decide, by decide⟩

/-- Witness for C7 (amended) at a concrete lowercase-named slot. -/
theorem c7_witness :
    containsSub (quoteName srcDog.sourceTable).data tripleDog.sql.data = false :=
  c7_replace_quoted cmplDog [proxySound] srcDog ["bark_sound"] [tripleDog]
    (by decide) (by decide) tripleDog (by decide)
